import Mathlib

/-!
Shallow embedding of the goldesel-content-proxy analytics pipeline
(`src/api/data.js`): the article/pageview reconciliation engine, the
path index built from analytics rows, ranking, period deltas, the
batch combinator, the month-boundary computation of `monthlyStats`,
and the HTTP dispatcher envelope logic.

JavaScript objects used as string-keyed maps are embedded as
association lists with JS-object insertion semantics (first binding
wins on lookup, upsert mutates in place).  Machine numbers coming out
of `parseInt` are embedded as `Int`; the float division inside the
delta helpers is embedded as exact rational arithmetic with JS
`Math.round` semantics (`⌊x + 1/2⌋`).
-/

namespace Goldesel

variable {κ : Type} [DecidableEq κ]

/-- JS-object lookup on an association list: the first binding wins. -/
def jsGet (m : List (κ × α)) (k : κ) : Option α :=
  match m with
  | [] => none
  | (k', v) :: rest => if k' = k then some v else jsGet rest k

/-- JS-object upsert `m[k] = f (m[k])`: updates the first binding in
place, or appends a new binding built from `f none`. -/
def jsSet (m : List (κ × α)) (k : κ) (f : Option α → α) :
    List (κ × α) :=
  match m with
  | [] => [(k, f none)]
  | (k', v) :: rest =>
    if k' = k then (k', f (some v)) :: rest else (k', v) :: jsSet rest k f

theorem jsGet_jsSet_self (m : List (κ × α)) (k : κ)
    (f : Option α → α) : jsGet (jsSet m k f) k = some (f (jsGet m k)) := by
  induction m with
  | nil => simp [jsGet, jsSet]
  | cons hd tl ih =>
    obtain ⟨k', v⟩ := hd
    by_cases h : k' = k <;> simp [jsGet, jsSet, h, ih]

theorem jsGet_jsSet_ne (m : List (κ × α)) (k k' : κ)
    (f : Option α → α) (h : k ≠ k') :
    jsGet (jsSet m k f) k' = jsGet m k' := by
  induction m with
  | nil => simp [jsGet, jsSet, h]
  | cons hd tl ih =>
    obtain ⟨k₀, v⟩ := hd
    by_cases h0 : k₀ = k <;> by_cases h1 : k₀ = k' <;>
      simp_all [jsGet, jsSet]

/-- One analytics report row: `(pagePath, sessionDefaultChannelGroup,
screenPageViews)` after positional decoding and `parseInt`. -/
structure MetricsRow where
  path : String
  channel : String
  views : Int
  deriving Repr, DecidableEq

/-- One entry of the path index: `{ total, channels }`. -/
structure PVEntry where
  total : Int
  channels : List (String × Int)
  deriving Repr, DecidableEq

/-- The zero-value placeholder `{ total: 0, channels: {} }`. -/
def zeroEntry : PVEntry := { total := 0, channels := [] }

/-- `getViewsByChannel` body from `src/api/data.js` (lines 1744-1754):
fold over the report rows, accumulating per-path totals and per-channel
sums.  Mirrors
`if (!map[path]) map[path] = { total: 0, channels: {} };
 map[path].total += views;
 map[path].channels[channel] = (map[path].channels[channel] || 0) + views;`.
-/
def addRow (m : List (String × PVEntry)) (row : MetricsRow) :
    List (String × PVEntry) :=
  jsSet m row.path fun e =>
    let e := e.getD zeroEntry
    { total := e.total + row.views
      channels := jsSet e.channels row.channel
        fun v => v.getD 0 + row.views }

/-- The `PathIndex` built by `getViewsByChannel` from the report rows. -/
def getViewsByChannel (rows : List MetricsRow) : List (String × PVEntry) :=
  rows.foldl addRow []

/-- A WordPress post as projected by the query
`_fields=id,title,link,date,slug` (only the fields the reconciliation
reads). -/
structure Post where
  title : String
  link : String
  date : String
  slug : String
  deriving Repr, DecidableEq

/-- A reconciled article as returned by `getArticlesWithChannels`
(lines 1788-1796).  The object literal has exactly these fields; in
particular there is no `categories` field, which we record as an
always-`none` option so that the later `a.categories || []` access in
`contentAnalysis` can be embedded faithfully. -/
structure Article where
  title : String
  path : String
  url : String
  slug : String
  date : String
  pageviews : Int
  channels : List (String × Int)
  categories : Option (List Int)
  deriving Repr, DecidableEq

/-- The ordered candidate path list built from a slug (lines 1775-1782). -/
def candidatePaths (slug : String) : List String :=
  [ "/news/" ++ slug ++ "/"
  , "/news/" ++ slug
  , "/artikel/" ++ slug ++ "/"
  , "/artikel/" ++ slug
  , "/" ++ slug ++ "/"
  , "/" ++ slug ]

/-- `let data = { total: 0, channels: {} };
for (const path of paths) { if (viewMap[path]) { data = viewMap[path]; break; } }`
(lines 1783-1786).  A present binding is a JS object, hence truthy, so
the loop binds the first candidate that has an entry at all. -/
def firstMatch (viewMap : List (String × PVEntry)) :
    List String → Option (String × PVEntry)
  | [] => none
  | p :: ps =>
    match jsGet viewMap p with
    | some e => some (p, e)
    | none => firstMatch viewMap ps

/-- The per-post body of the `posts.map` in `getArticlesWithChannels`
(lines 1773-1797). -/
def reconcile (viewMap : List (String × PVEntry)) (p : Post) : Article :=
  let data := (firstMatch viewMap (candidatePaths p.slug)).elim zeroEntry
    Prod.snd
  { title := p.title
    path := "/news/" ++ p.slug ++ "/"
    url := p.link.replace "goldeselblog.de" "goldesel.de"
    slug := p.slug
    date := p.date
    pageviews := data.total
    channels := data.channels
    categories := none }

/-- `getArticlesWithChannels` after the two fetches: the WordPress
posts and the analytics path index are the fetched inputs; the early
return on an empty post list and the `posts.map` are embedded directly. -/
def getArticlesWithChannels (posts : List Post)
    (viewMap : List (String × PVEntry)) : List Article :=
  if posts = [] then [] else posts.map (reconcile viewMap)

/-- Sum of the values of a channel-breakdown object. -/
def sumChannels (chs : List (String × Int)) : Int :=
  (chs.map Prod.snd).sum

/-- Stable insertion into a list: `x` is placed before the first
element `b` such that `p x b`, where `p x b` reads "`x` may precede
`b`".  With `p x b := key b ≤ key x` this is the descending stable
sort step of JS `Array.prototype.sort` (ECMAScript sorts are stable),
with `p x b := key x ≤ key b` the ascending one. -/
def insertBy (p : α → α → Prop) [DecidableRel p] (x : α) :
    List α → List α
  | [] => [x]
  | b :: l => if p x b then x :: b :: l else b :: insertBy p x l

/-- Stable sort by the precedence relation `p` (insertion sort,
processing the list right-to-left so earlier elements are inserted in
front of equal-key later ones, matching a stable sort). -/
def sortBy (p : α → α → Prop) [DecidableRel p] : List α → List α
  | [] => []
  | x :: xs => insertBy p x (sortBy p xs)

/-- Descending precedence used by `top5`:
`(a, b) => b.pageviews - a.pageviews`. -/
def descPV (x b : Article) : Prop := b.pageviews ≤ x.pageviews

instance : DecidableRel descPV := fun x b =>
  inferInstanceAs (Decidable (b.pageviews ≤ x.pageviews))

/-- Ascending precedence used by `flop5`:
`(a, b) => a.pageviews - b.pageviews`. -/
def ascPV (x b : Article) : Prop := x.pageviews ≤ b.pageviews

instance : DecidableRel ascPV := fun x b =>
  inferInstanceAs (Decidable (x.pageviews ≤ b.pageviews))

/-- `top5` after the fetch (line 1803):
`articles.sort((a, b) => b.pageviews - a.pageviews).slice(0, 5)`. -/
def top5 (articles : List Article) : List Article :=
  (sortBy descPV articles).take 5

/-- `flop5` after the fetch (line 1809):
`articles.sort((a, b) => a.pageviews - b.pageviews).slice(0, 5)`. -/
def flop5 (articles : List Article) : List Article :=
  (sortBy ascPV articles).take 5

/-- JS `Math.round` on an exact rational: round half toward `+∞`. -/
def jsRound (q : ℚ) : Int := ⌊q + 1 / 2⌋

/-- The delta helper inside `kpis` (lines 1882-1886):
`(cur, prv) => { const c = parseInt(cur), p = parseInt(prv);
  if (!p) return null;
  return Math.round(((c - p) / p) * 100); }`
(on integers `!p` is exactly `p = 0`). -/
def deltaKpis (c p : Int) : Option Int :=
  if p = 0 then none else some (jsRound (((c : ℚ) - p) / p * 100))

/-- The delta helper inside `monthlyStats` (line 2470):
`(c, p) => p === 0 ? null : Math.round(((c - p) / p) * 100)`. -/
def deltaMonthly (c p : Int) : Option Int :=
  if p = 0 then none else some (jsRound (((c : ℚ) - p) / p * 100))

/-! ### Batch combinator (lines 1599-1620) -/

/-- The action names the `switch` inside `batch` recognizes. -/
def batchActions : List String :=
  [ "kpis", "top5", "sources", "monthlyStats", "newArticles"
  , "dailyPageviews", "reviewCandidates", "contentAnalysis"
  , "contentAttribution" ]

/-- A value stored under an action key in the batch results object:
either the pipeline's data or the `{ _error: err.message }` marker
written by the `catch` block. -/
inductive BatchResult (V : Type) where
  | data (v : V)
  | errorMarker (msg : String)
  deriving Repr, DecidableEq

/-- What one iteration of the `actions.map` callback writes for a
given action, with the underlying pipelines abstracted as an
environment `env : String → Except String V` (`.error` = the pipeline
threw).  An action name outside the `switch` matches no `case` and no
`default`, throws nothing, and therefore writes nothing. -/
def runBatchAction (env : String → Except String V) (a : String) :
    Option (BatchResult V) :=
  if a ∈ batchActions then
    match env a with
    | .ok v => some (.data v)
    | .error e => some (.errorMarker e)
  else none

/-- `batch(actions, range)`: every callback writes to its own key of
the shared `results` object (the `case` bodies and the `catch` both
key by the action name), so the concurrent `Promise.all` is embedded
as a left fold over the action list. -/
def batch (acts : List String) (env : String → Except String V) :
    List (String × BatchResult V) :=
  acts.foldl
    (fun m a =>
      match runBatchAction env a with
      | some r => jsSet m a fun _ => r
      | none => m)
    []

/-! ### Category rollup `contentAnalysis` (lines 1918-1960) -/

/-- A WordPress category row from
`categories?per_page=50&_fields=id,name,count,slug`. -/
structure Cat where
  id : Int
  name : String
  count : Int
  slug : String
  deriving Repr, DecidableEq

/-- The `{ title, pageviews, path }` projection pushed onto
`cp.articles`. -/
structure ArtRef where
  title : String
  pageviews : Int
  path : String
  deriving Repr, DecidableEq

/-- One accumulating `categoryPerformance[cat.name]` record. -/
structure CatPerf where
  name : String
  slug : String
  count : Int
  totalPageviews : Int
  articles : List ArtRef
  channels : List (String × Int)
  deriving Repr, DecidableEq

/-- One element of the final `categories` array (the accumulator plus
`avgPageviews` / `topChannel`, with `articles` capped at 3). -/
structure CatOut where
  name : String
  slug : String
  count : Int
  totalPageviews : Int
  articles : List ArtRef
  channels : List (String × Int)
  avgPageviews : Int
  topChannel : String
  deriving Repr, DecidableEq

/-- The value returned by `contentAnalysis`. -/
structure CAResult where
  categories : List CatOut
  totalArticles : Nat
  totalPageviews : Int
  period : String
  deriving Repr, DecidableEq

/-- The inner `(a.categories || []).forEach(catId => ...)` body: skip
ids missing from `catMap`, otherwise upsert the per-category
accumulator. -/
def caAddArticle (catMap : List (Int × Cat))
    (m : List (String × CatPerf)) (a : Article) :
    List (String × CatPerf) :=
  (a.categories.getD []).foldl
    (fun m catId =>
      match jsGet catMap catId with
      | none => m
      | some cat =>
        jsSet m cat.name fun cp =>
          let cp := cp.getD
            { name := cat.name, slug := cat.slug, count := 0
              totalPageviews := 0, articles := [], channels := [] }
          { cp with
            count := cp.count + 1
            totalPageviews := cp.totalPageviews + a.pageviews
            articles := cp.articles ++
              [{ title := a.title, pageviews := a.pageviews
                 path := a.path }]
            channels := a.channels.foldl
              (fun chs (chv : String × Int) =>
                jsSet chs chv.1 fun v => v.getD 0 + chv.2)
              cp.channels })
    m

/-- `descVal`: the `(a, b) => b[1] - a[1]` comparator over
`Object.entries` pairs. -/
def descVal (x b : String × Int) : Prop := b.2 ≤ x.2

instance : DecidableRel descVal := fun x b =>
  inferInstanceAs (Decidable (b.2 ≤ x.2))

/-- Descending-by-pageviews precedence over `ArtRef`. -/
def descRefPV (x b : ArtRef) : Prop := b.pageviews ≤ x.pageviews

instance : DecidableRel descRefPV := fun x b =>
  inferInstanceAs (Decidable (b.pageviews ≤ x.pageviews))

/-- Descending-by-totalPageviews precedence over `CatOut`. -/
def descTotalPV (x b : CatOut) : Prop :=
  b.totalPageviews ≤ x.totalPageviews

instance : DecidableRel descTotalPV := fun x b =>
  inferInstanceAs (Decidable (b.totalPageviews ≤ x.totalPageviews))

/-- `Object.entries(c.channels).sort((a,b) => b[1]-a[1])[0]?.[0] || '—'`. -/
def topChannelOf (chs : List (String × Int)) : String :=
  match sortBy descVal chs with
  | [] => "—"
  | (k, _) :: _ => if k = "" then "—" else k

/-- `contentAnalysis` after the two fetches (`allArticles` from
`getArticlesWithChannels`, `cats` from the categories endpoint):
build `catMap`, group by category name, then map to the final record
and sort by total pageviews. -/
def contentAnalysis (allArticles : List Article) (cats : List Cat) :
    CAResult :=
  let catMap := cats.foldl (fun m c => jsSet m c.id fun _ => c) []
  let perf := allArticles.foldl (caAddArticle catMap) []
  let categories := sortBy descTotalPV <| perf.map fun kv =>
    let c : CatPerf := kv.2
    { name := c.name, slug := c.slug, count := c.count
      totalPageviews := c.totalPageviews
      articles := (sortBy descRefPV c.articles).take 3
      channels := c.channels
      avgPageviews :=
        if 0 < c.count then
          jsRound ((c.totalPageviews : ℚ) / (c.count : ℚ))
        else 0
      topChannel := topChannelOf c.channels }
  { categories := categories
    totalArticles := allArticles.length
    totalPageviews := (allArticles.map Article.pageviews).sum
    period := "90 Tage" }

/-! ### Calendar model for `monthlyStats` (lines 2436-2448) and
`fmtDate` (line 1729)

A JS `Date` is an instant on the epoch-millisecond timeline.  We embed
an instant structurally as a UTC calendar date plus the millisecond of
that UTC day; day arithmetic is the calendar successor/predecessor.
The environment's local clock is UTC plus a fixed offset of `o`
minutes (`o = 0` is the UTC runtime); `new Date(y, m, 1)` interprets
its arguments in local time, while `toISOString` (used by `fmtDate`)
always renders the UTC date. -/

/-- A proleptic-Gregorian calendar date with JS field conventions:
`month` is 0-based (`getMonth`), `day` is 1-based (`getDate`). -/
structure Civil where
  year : Int
  month : Nat
  day : Nat
  deriving Repr, DecidableEq

/-- Gregorian leap-year rule. -/
def isLeap (y : Int) : Bool :=
  y % 4 = 0 && (y % 100 ≠ 0 || y % 400 = 0)

/-- Days in the (0-based) month `m` of year `y`. -/
def daysInMonth (y : Int) (m : Nat) : Nat :=
  match m with
  | 0 => 31 | 1 => if isLeap y then 29 else 28 | 2 => 31
  | 3 => 30 | 4 => 31 | 5 => 30 | 6 => 31 | 7 => 31
  | 8 => 30 | 9 => 31 | 10 => 30 | _ => 31

/-- Calendar predecessor of a date. -/
def predDay (c : Civil) : Civil :=
  if 1 < c.day then { c with day := c.day - 1 }
  else if 0 < c.month then
    ⟨c.year, c.month - 1, daysInMonth c.year (c.month - 1)⟩
  else ⟨c.year - 1, 11, 31⟩

/-- Calendar successor of a date. -/
def succDay (c : Civil) : Civil :=
  if c.day < daysInMonth c.year c.month then { c with day := c.day + 1 }
  else if c.month < 11 then ⟨c.year, c.month + 1, 1⟩
  else ⟨c.year + 1, 0, 1⟩

/-- Milliseconds in a day. -/
def msPerDay : Nat := 86400000

/-- An instant: its UTC calendar date and the millisecond of that UTC
day (an instant is well-formed when `ms < msPerDay`). -/
structure Instant where
  civil : Civil
  ms : Nat
  deriving Repr, DecidableEq

/-- Add `k < msPerDay` milliseconds to an instant. -/
def addMs (t : Instant) (k : Nat) : Instant :=
  if t.ms + k < msPerDay then ⟨t.civil, t.ms + k⟩
  else ⟨succDay t.civil, t.ms + k - msPerDay⟩

/-- Subtract `k ≤ msPerDay` milliseconds from an instant. -/
def subMs (t : Instant) (k : Nat) : Instant :=
  if k ≤ t.ms then ⟨t.civil, t.ms - k⟩
  else ⟨predDay t.civil, t.ms + msPerDay - k⟩

/-- Shift an instant by a signed millisecond amount (|k| ≤ one day). -/
def shiftMs (t : Instant) (k : Int) : Instant :=
  if 0 ≤ k then addMs t k.toNat else subMs t (-k).toNat

/-- The local calendar date an environment at UTC+`o` minutes shows
for an instant (`getFullYear` / `getMonth` / `getDate`). -/
def localCivil (o : Int) (t : Instant) : Civil :=
  (shiftMs t (o * 60000)).civil

/-- `new Date(y, m, 1)` in an environment at UTC+`o` minutes: the
instant of local midnight on the first of month `m`. -/
def mkLocalFirst (o : Int) (y : Int) (m : Nat) : Instant :=
  shiftMs ⟨⟨y, m, 1⟩, 0⟩ (-(o * 60000))

/-- Left-pad a numeral string with zeros to width `w`. -/
def padZeros (w : Nat) (s : String) : String :=
  String.mk (List.replicate (w - s.length) '0') ++ s

/-- Render a civil date the way `toISOString().split('T')[0]` does for
years 0..9999: `YYYY-MM-DD` with a 1-based two-digit month. -/
def renderCivil (c : Civil) : String :=
  padZeros 4 (toString c.year) ++ "-" ++
    padZeros 2 (toString (c.month + 1)) ++ "-" ++
    padZeros 2 (toString c.day)

/-- `fmtDate`: `(d) => d.toISOString().split('T')[0]` — the UTC date
of the instant, rendered `YYYY-MM-DD`. -/
def fmtDate (t : Instant) : String := renderCivil t.civil

/-- The three UTC dates `monthlyStats` formats for its two report
ranges, for an environment at UTC+`o` minutes whose clock reads `now`:
`firstDayThisMonth = new Date(now.getFullYear(), now.getMonth(), 1)`,
`lastDayLastMonth = new Date(firstDayThisMonth - 1)`,
`firstDayLastMonth = new Date(lastDayLastMonth.getFullYear(),
lastDayLastMonth.getMonth(), 1)`. -/
def monthlyStatsCivils (o : Int) (now : Instant) :
    Civil × Civil × Civil :=
  let ym := localCivil o now
  let firstDayThisMonth := mkLocalFirst o ym.year ym.month
  let lastDayLastMonth := subMs firstDayThisMonth 1
  let lym := localCivil o lastDayLastMonth
  let firstDayLastMonth := mkLocalFirst o lym.year lym.month
  (firstDayThisMonth.civil, lastDayLastMonth.civil,
    firstDayLastMonth.civil)

/-- The three `YYYY-MM-DD` strings `monthlyStats` sends downstream. -/
def monthlyStatsDates (o : Int) (now : Instant) :
    String × String × String :=
  let c := monthlyStatsCivils o now
  (renderCivil c.1, renderCivil c.2.1, renderCivil c.2.2)

/-! ### HTTP dispatcher (handler, lines 2850-2915) -/

/-- The non-batch `case` labels of the handler's `switch`. -/
def dispatchActions : List String :=
  [ "top5", "flop5", "top5New", "flop5New", "topstories", "kpis"
  , "sources", "articles", "reviewCandidates", "articleContent"
  , "publishPost", "aiReview", "aiAssist", "createPost"
  , "generateImage", "topArticlesForDate", "searchconsole"
  , "searchconsoleNews", "searchconsoleAktienNews"
  , "searchconsoleDebug", "monthlyStats", "newArticles"
  , "dailyPageviews", "topPagesByChannel", "contentAnalysis"
  , "contentAttribution" ]

/-- Every action identifier the `switch` recognizes. -/
def validActions : List String := "batch" :: dispatchActions

/-- The fixed part of the `default:` branch's error message after the
interpolated action. -/
def unknownActionTail : String :=
  "\". Verfügbar: top5, flop5, top5New, flop5New, topstories, kpis, sources, articles, monthlyStats, newArticles, searchconsoleNews, searchconsoleAktienNews, searchconsoleDebug, reviewCandidates, articleContent, publishPost, aiReview, aiAssist (POST), createPost (POST)"

/-- The `default:` branch's error message (interpolating the unknown
action). -/
def unknownActionMsg (action : String) : String :=
  "Unbekannte action: \"" ++ action ++ unknownActionTail

/-- The 19 action identifiers the unknown-action message actually
names (`aiAssist` and `createPost` appear with a `(POST)` marker). -/
def listedActions : List String :=
  [ "top5", "flop5", "top5New", "flop5New", "topstories", "kpis"
  , "sources", "articles", "monthlyStats", "newArticles"
  , "searchconsoleNews", "searchconsoleAktienNews"
  , "searchconsoleDebug", "reviewCandidates", "articleContent"
  , "publishPost", "aiReview", "aiAssist", "createPost" ]

/-- `s` occurs somewhere in `msg`. -/
def mentions (msg s : String) : Prop := s.toList <:+: msg.toList

instance : ∀ msg s, Decidable (mentions msg s) := fun msg s =>
  inferInstanceAs (Decidable (s.toList <:+: msg.toList))

/-- The JSON body the handler serializes. -/
inductive Envelope (V : Type) where
  | success (data : V ⊕ List (String × BatchResult V))
  | failure (error : String)
  deriving Repr

/-- An HTTP response: status code and optional JSON body (`res.end()`
sends none). -/
structure HandlerResponse (V : Type) where
  status : Nat
  body : Option (Envelope V)

/-- JS `s.split(',')`, by structural recursion over the characters. -/
def splitCommaAux : List Char → List Char → List String
  | [], acc => [String.mk acc.reverse]
  | c :: cs, acc =>
    if c = ',' then String.mk acc.reverse :: splitCommaAux cs []
    else splitCommaAux cs (c :: acc)

/-- `(req.query.actions || '').split(',').filter(Boolean)` (the only
falsy string is the empty one). -/
def splitActions (actionsParam : Option String) : List String :=
  (splitCommaAux (actionsParam.getD "").toList []).filter (· ≠ "")

/-- The handler, with each pipeline abstracted as
`env : String → Except String V` (`.error e` = the pipeline threw
`e`): answer `OPTIONS` preflight with a bare 200, run `batch`
specially (an empty action list throws, caught as a 500), dispatch a
recognized action to its pipeline wrapping the result in the
success/error envelope, and answer anything else with the 400
unknown-action message. -/
def handler (env : String → Except String V) (method : String)
    (action : String) (actionsParam : Option String) :
    HandlerResponse V :=
  if method = "OPTIONS" then ⟨200, none⟩
  else if action = "batch" then
    let acts := splitActions actionsParam
    if acts = [] then
      ⟨500, some (.failure "actions parameter required (comma-separated)")⟩
    else ⟨200, some (.success (.inr (batch acts env)))⟩
  else if action ∈ dispatchActions then
    match env action with
    | .ok v => ⟨200, some (.success (.inl v))⟩
    | .error e => ⟨500, some (.failure e)⟩
  else ⟨400, some (.failure (unknownActionMsg action))⟩

/-! ### Lemmas about the candidate-path scan -/

theorem firstMatch_eq_none_iff (vm : List (String × PVEntry))
    (ps : List String) :
    firstMatch vm ps = none ↔ ∀ q ∈ ps, jsGet vm q = none := by
  induction ps with
  | nil => simp [firstMatch]
  | cons p ps ih =>
    cases h : jsGet vm p <;> simp [firstMatch, h, ih]

theorem firstMatch_eq_some (vm : List (String × PVEntry))
    (ps : List String) (q : String) (e : PVEntry)
    (h : firstMatch vm ps = some (q, e)) :
    jsGet vm q = some e ∧
      ∃ pre suf, ps = pre ++ q :: suf ∧ ∀ r ∈ pre, jsGet vm r = none := by
  induction ps with
  | nil => simp [firstMatch] at h
  | cons p ps ih =>
    rw [firstMatch] at h
    cases hp : jsGet vm p with
    | some e' =>
      rw [hp] at h
      simp only [Option.some.injEq, Prod.mk.injEq] at h
      obtain ⟨rfl, rfl⟩ := h
      exact ⟨hp, [], ps, rfl, by simp⟩
    | none =>
      rw [hp] at h
      obtain ⟨hq, pre, suf, hps, hpre⟩ := ih h
      refine ⟨hq, p :: pre, suf, by simp [hps], ?_⟩
      intro r hr
      rcases List.mem_cons.mp hr with rfl | hr
      · exact hp
      · exact hpre r hr

/-- Sample data reused by the concrete witnesses. -/
def samplePost : Post :=
  { title := "Beispiel", link := "https://goldeselblog.de/news/foo/"
    date := "2025-07-01T00:00:00", slug := "foo" }

/-- A sample path-index entry with 100 views, all organic. -/
def sampleEntry : PVEntry :=
  { total := 100, channels := [("Organic Search", 100)] }

/-- C1.  The reconciliation is total: one article per post, in post
order, and a post none of whose candidate paths is in the path index
still yields an article, with zero pageviews and an empty channel
breakdown. -/
theorem c1_one_article_per_item (posts : List Post)
    (vm : List (String × PVEntry)) :
    (getArticlesWithChannels posts vm).length = posts.length ∧
    ∀ i (hi : i < posts.length)
      (ho : i < (getArticlesWithChannels posts vm).length),
      ((getArticlesWithChannels posts vm).get ⟨i, ho⟩).slug =
          (posts.get ⟨i, hi⟩).slug ∧
      ((getArticlesWithChannels posts vm).get ⟨i, ho⟩).title =
          (posts.get ⟨i, hi⟩).title ∧
      ((∀ q ∈ candidatePaths (posts.get ⟨i, hi⟩).slug,
          jsGet vm q = none) →
        ((getArticlesWithChannels posts vm).get ⟨i, ho⟩).pageviews = 0 ∧
        ((getArticlesWithChannels posts vm).get ⟨i, ho⟩).channels = []) := by
  by_cases hne : posts = []
  · subst hne
    refine ⟨rfl, ?_⟩
    intro i hi
    exact absurd hi (by simp)
  · have hout : getArticlesWithChannels posts vm =
        posts.map (reconcile vm) := by
      simp [getArticlesWithChannels, hne]
    rw [hout]
    refine ⟨List.length_map _ _, ?_⟩
    intro i hi ho
    have hget : (posts.map (reconcile vm)).get ⟨i, ho⟩ =
        reconcile vm (posts.get ⟨i, hi⟩) := List.get_map _
    rw [hget]
    refine ⟨rfl, rfl, ?_⟩
    intro hnone
    have hfm : firstMatch vm (candidatePaths (posts.get ⟨i, hi⟩).slug) =
        none := (firstMatch_eq_none_iff _ _).mpr hnone
    have hfm' : firstMatch vm (candidatePaths posts[i].slug) = none := hfm
    simp [reconcile, hfm', zeroEntry]

/-- Witness for C1 at a post whose slug appears nowhere in the index. -/
theorem c1_one_article_per_item_witness :
    ((getArticlesWithChannels [samplePost] []).get
        ⟨0, by decide⟩).pageviews = 0 ∧
    ((getArticlesWithChannels [samplePost] []).get
        ⟨0, by decide⟩).channels = [] := by
  have h := (c1_one_article_per_item [samplePost] []).2 0 (by decide)
    (by decide)
  exact h.2.2 (by intro q hq; rfl)

/-- C2.  The candidate paths are tried in exactly the priority order
primary-with-slash, primary, legacy-with-slash, legacy, bare-with-
slash, bare; the article's metrics come from the first candidate that
has an index entry (every earlier candidate being absent), and from
the `{total: 0, channels: {}}` placeholder when no candidate has one. -/
theorem c2_candidate_priority (p : Post)
    (vm : List (String × PVEntry)) :
    candidatePaths p.slug =
      [ "/news/" ++ p.slug ++ "/", "/news/" ++ p.slug
      , "/artikel/" ++ p.slug ++ "/", "/artikel/" ++ p.slug
      , "/" ++ p.slug ++ "/", "/" ++ p.slug ] ∧
    (∀ q e, firstMatch vm (candidatePaths p.slug) = some (q, e) →
      jsGet vm q = some e ∧
      (∃ pre suf, candidatePaths p.slug = pre ++ q :: suf ∧
        ∀ r ∈ pre, jsGet vm r = none) ∧
      (reconcile vm p).pageviews = e.total ∧
      (reconcile vm p).channels = e.channels) ∧
    ((∀ q ∈ candidatePaths p.slug, jsGet vm q = none) →
      (reconcile vm p).pageviews = 0 ∧ (reconcile vm p).channels = []) := by
  refine ⟨rfl, ?_, ?_⟩
  · intro q e h
    obtain ⟨hq, pre, suf, hsplit, hpre⟩ := firstMatch_eq_some vm _ q e h
    exact ⟨hq, ⟨pre, suf, hsplit, hpre⟩, by simp [reconcile, h],
      by simp [reconcile, h]⟩
  · intro hnone
    have hfm : firstMatch vm (candidatePaths p.slug) = none :=
      (firstMatch_eq_none_iff _ _).mpr hnone
    simp [reconcile, hfm, zeroEntry]

/-- Witness for C2: with only the legacy path in the index, the
article binds that entry's metrics, and the two higher-priority
candidates are absent. -/
theorem c2_candidate_priority_witness :
    jsGet [("/artikel/foo/", sampleEntry)] "/artikel/foo/" =
        some sampleEntry ∧
    (reconcile [("/artikel/foo/", sampleEntry)] samplePost).pageviews =
        sampleEntry.total ∧
    (reconcile [("/artikel/foo/", sampleEntry)] samplePost).channels =
        sampleEntry.channels := by
  have h := (c2_candidate_priority samplePost
      [("/artikel/foo/", sampleEntry)]).2.1 "/artikel/foo/" sampleEntry
    (by rfl)
  exact ⟨h.1, h.2.2.1, h.2.2.2⟩

/-! ### The path-index invariant -/

theorem sumChannels_jsSet (chs : List (String × Int)) (k : String)
    (v : Int) :
    sumChannels (jsSet chs k fun o => o.getD 0 + v) =
      sumChannels chs + v := by
  induction chs with
  | nil => simp [jsSet, sumChannels]
  | cons hd tl ih =>
    obtain ⟨k', w⟩ := hd
    by_cases h : k' = k
    · simp [jsSet, h, sumChannels]
      ring
    · simp only [jsSet, if_neg h]
      simp [sumChannels] at ih ⊢
      omega

/-- Every entry of the accumulating map keeps `total` equal to the sum
of its channel values. -/
def IndexInv (m : List (String × PVEntry)) : Prop :=
  ∀ p e, jsGet m p = some e → e.total = sumChannels e.channels

theorem indexInv_addRow (m : List (String × PVEntry)) (row : MetricsRow)
    (hm : IndexInv m) : IndexInv (addRow m row) := by
  intro p e hp
  by_cases hkey : p = row.path
  · subst hkey
    rw [addRow, jsGet_jsSet_self] at hp
    injection hp with hp
    subst hp
    cases hold : jsGet m row.path with
    | none =>
      simp [hold, zeroEntry, jsSet, sumChannels]
    | some e0 =>
      have h0 := hm row.path e0 hold
      simp [hold, sumChannels_jsSet, h0]
  · rw [addRow, jsGet_jsSet_ne _ _ _ _ (Ne.symm hkey)] at hp
    exact hm p e hp

theorem indexInv_getViewsByChannel (rows : List MetricsRow) :
    IndexInv (getViewsByChannel rows) := by
  suffices h : ∀ m, IndexInv m → IndexInv (rows.foldl addRow m) by
    exact h [] (by intro p e hp; simp [jsGet] at hp)
  induction rows with
  | nil => intro m hm; exact hm
  | cons r rs ih =>
    intro m hm
    exact ih (addRow m r) (indexInv_addRow m r hm)

/-- C3.  Every article reconciled against an index built by
`getViewsByChannel` has pageviews equal to the sum of its per-channel
breakdown (entries of the index satisfy the invariant, and the zero
placeholder satisfies it trivially). -/
theorem c3_total_eq_sum_channels (rows : List MetricsRow)
    (posts : List Post) (a : Article)
    (ha : a ∈ getArticlesWithChannels posts (getViewsByChannel rows)) :
    a.pageviews = sumChannels a.channels := by
  have hmem : a ∈ posts.map (reconcile (getViewsByChannel rows)) := by
    by_cases hne : posts = []
    · subst hne; simp [getArticlesWithChannels] at ha
    · simpa [getArticlesWithChannels, hne] using ha
  obtain ⟨p, _, rfl⟩ := List.mem_map.mp hmem
  cases hfm : firstMatch (getViewsByChannel rows)
      (candidatePaths p.slug) with
  | none => simp [reconcile, hfm, zeroEntry, sumChannels]
  | some qe =>
    obtain ⟨q, e⟩ := qe
    have hq := (firstMatch_eq_some _ _ q e hfm).1
    have hinv := indexInv_getViewsByChannel rows q e hq
    simp [reconcile, hfm, hinv]

/-- Witness for C3 on a two-row report (one path, two channels). -/
theorem c3_total_eq_sum_channels_witness :
    (getArticlesWithChannels [samplePost]
        (getViewsByChannel
          [ ⟨"/news/foo/", "Direct", 30⟩
          , ⟨"/news/foo/", "Organic Search", 70⟩ ])).length = 1 ∧
    ∀ a ∈ getArticlesWithChannels [samplePost]
        (getViewsByChannel
          [ ⟨"/news/foo/", "Direct", 30⟩
          , ⟨"/news/foo/", "Organic Search", 70⟩ ]),
      a.pageviews = sumChannels a.channels := by
  refine ⟨by decide, ?_⟩
  intro a ha
  exact c3_total_eq_sum_channels _ [samplePost] a ha

/-! ### Period deltas -/

/-- C4.  Both delta helpers return `null` for a zero previous value,
`0` when current equals a nonzero previous value, and otherwise the
rounded signed percentage; in particular `delta 150 100 = 50` and
`delta 50 100 = -50`. -/
theorem c4_delta_semantics (c p : Int) :
    (p = 0 → deltaKpis c p = none ∧ deltaMonthly c p = none) ∧
    (p ≠ 0 → c = p → deltaKpis c p = some 0 ∧ deltaMonthly c p = some 0) ∧
    (p ≠ 0 →
      deltaKpis c p = some (jsRound (((c : ℚ) - p) / p * 100)) ∧
      deltaMonthly c p = some (jsRound (((c : ℚ) - p) / p * 100))) ∧
    deltaKpis 150 100 = some 50 ∧ deltaKpis 50 100 = some (-50) ∧
    deltaMonthly 150 100 = some 50 ∧ deltaMonthly 50 100 = some (-50) := by
  refine ⟨?_, ?_, ?_, ?_, ?_, ?_, ?_⟩
  · intro h; simp [deltaKpis, deltaMonthly, h]
  · intro hp hc
    subst hc
    have : ((c : ℚ) - c) / c * 100 = 0 := by ring
    norm_num [deltaKpis, deltaMonthly, hp, this, jsRound]
  · intro hp; simp [deltaKpis, deltaMonthly, hp]
  · show deltaKpis 150 100 = some 50
    norm_num [deltaKpis, jsRound]
  · show deltaKpis 50 100 = some (-50)
    norm_num [deltaKpis, jsRound]
  · show deltaMonthly 150 100 = some 50
    norm_num [deltaMonthly, jsRound]
  · show deltaMonthly 50 100 = some (-50)
    norm_num [deltaMonthly, jsRound]

/-- Witness for C4 at `(current, previous) ∈ {(150,100), (100,100), (40,0)}`. -/
theorem c4_delta_semantics_witness :
    deltaKpis 40 0 = none ∧ deltaKpis 100 100 = some 0 ∧
    deltaKpis 150 100 = some 50 := by
  refine ⟨((c4_delta_semantics 40 0).1 rfl).1, ?_, ?_⟩
  · exact ((c4_delta_semantics 100 100).2.1 (by norm_num) rfl).1
  · exact (c4_delta_semantics 150 100).2.2.2.1

/-! ### Batch-mode results -/

theorem batch_fold_lookup (env : String → Except String V)
    (acts : List String) (a : String) (m : List (String × BatchResult V)) :
    jsGet (acts.foldl
      (fun m a =>
        match runBatchAction env a with
        | some r => jsSet m a fun _ => r
        | none => m) m) a =
      if a ∈ acts ∧ (runBatchAction env a).isSome
      then runBatchAction env a else jsGet m a := by
  induction acts generalizing m with
  | nil => simp
  | cons b acts ih =>
    rw [List.foldl_cons, ih]
    by_cases hmem : a ∈ acts ∧ (runBatchAction env a).isSome
    · simp only [hmem, if_pos]
      have : a ∈ b :: acts ∧ (runBatchAction env a).isSome :=
        ⟨List.mem_cons_of_mem b hmem.1, hmem.2⟩
      simp [this]
    · rw [if_neg hmem]
      by_cases hab : a = b
      · subst hab
        cases hrun : runBatchAction env a with
        | some r => simp [jsGet_jsSet_self]
        | none => simp
      · have hcond : ¬(a ∈ b :: acts ∧ (runBatchAction env a).isSome) := by
          intro hc
          exact hmem ⟨(List.mem_cons.mp hc.1).resolve_left hab, hc.2⟩
        rw [if_neg hcond]
        cases hrun : runBatchAction env b with
        | some r => rw [jsGet_jsSet_ne _ _ _ _ (Ne.symm hab)]
        | none => rfl

theorem batch_lookup (env : String → Except String V)
    (acts : List String) (a : String) :
    jsGet (batch acts env) a =
      if a ∈ acts then runBatchAction env a else none := by
  rw [batch, batch_fold_lookup]
  by_cases hmem : a ∈ acts
  · cases hrun : runBatchAction env a with
    | some r => simp [hmem, hrun]
    | none => simp [hmem, hrun, jsGet]
  · simp [hmem, jsGet]

/-- Counterexample for C5: a batch naming the valid action `kpis` and
the invalid action `nonsense` returns the valid action's data with
HTTP 200, but the results object has NO key for `nonsense` at all —
the unknown name matches no `case` and no `default` in the `switch`,
so no error marker is recorded for it. -/
theorem c5_counterexample :
    jsGet (batch ["kpis", "nonsense"] fun _ => Except.ok (0 : Int))
        "kpis" = some (.data 0) ∧
    jsGet (batch ["kpis", "nonsense"] fun _ => Except.ok (0 : Int))
        "nonsense" = none ∧
    (handler (fun _ => Except.ok (0 : Int)) "GET" "batch"
        (some "kpis,nonsense")).status = 200 := by
  refine ⟨by decide, by decide, by decide⟩

/-- C5 as amended.  Each batch sub-action is executed independently: a
recognized action whose pipeline throws gets an `{ _error }` marker
under its own key, a recognized action whose pipeline succeeds gets
its data, the other actions are unaffected — but an action name the
batch `switch` does not recognize is silently absent from the
results (no key, no error marker).  The handler still answers 200
whenever the requested action list is nonempty. -/
theorem c5_batch_isolation (env : String → Except String V)
    (acts : List String) (a : String) (ap : Option String)
    (hap : splitActions ap ≠ []) :
    jsGet (batch acts env) a =
      (if a ∈ acts then runBatchAction env a else none) ∧
    (∀ e, a ∈ acts → a ∈ batchActions → env a = .error e →
      jsGet (batch acts env) a = some (.errorMarker e)) ∧
    (∀ v, a ∈ acts → a ∈ batchActions → env a = .ok v →
      jsGet (batch acts env) a = some (.data v)) ∧
    (a ∉ batchActions → jsGet (batch acts env) a = none) ∧
    handler env "GET" "batch" ap =
      ⟨200, some (.success (.inr (batch (splitActions ap) env)))⟩ := by
  refine ⟨batch_lookup env acts a, ?_, ?_, ?_, ?_⟩
  · intro e hmem hknown herr
    rw [batch_lookup, if_pos hmem, runBatchAction, if_pos hknown, herr]
  · intro v hmem hknown hok
    rw [batch_lookup, if_pos hmem, runBatchAction, if_pos hknown, hok]
  · intro hunknown
    rw [batch_lookup, runBatchAction, if_neg hunknown]
    simp
  · simp [handler, hap]

/-- Witness for C5 as amended: `kpis` throws and gets a marker,
`top5` succeeds and returns data, `nonsense` is absent; status 200. -/
theorem c5_batch_isolation_witness :
    jsGet (batch ["kpis", "top5", "nonsense"]
        (fun a => if a = "kpis" then Except.error "boom"
          else Except.ok (7 : Int))) "kpis" =
      some (.errorMarker "boom") ∧
    jsGet (batch ["kpis", "top5", "nonsense"]
        (fun a => if a = "kpis" then Except.error "boom"
          else Except.ok (7 : Int))) "top5" = some (.data 7) ∧
    jsGet (batch ["kpis", "top5", "nonsense"]
        (fun a => if a = "kpis" then Except.error "boom"
          else Except.ok (7 : Int))) "nonsense" = none ∧
    (handler (fun a => if a = "kpis" then Except.error "boom"
        else Except.ok (7 : Int)) "GET" "batch"
        (some "kpis,top5,nonsense")).status = 200 := by
  have h1 := c5_batch_isolation
    (fun a => if a = "kpis" then Except.error "boom"
      else Except.ok (7 : Int))
    ["kpis", "top5", "nonsense"] "kpis" (some "kpis,top5,nonsense")
    (by decide)
  have h2 := c5_batch_isolation
    (fun a => if a = "kpis" then Except.error "boom"
      else Except.ok (7 : Int))
    ["kpis", "top5", "nonsense"] "top5" (some "kpis,top5,nonsense")
    (by decide)
  have h3 := c5_batch_isolation
    (fun a => if a = "kpis" then Except.error "boom"
      else Except.ok (7 : Int))
    ["kpis", "top5", "nonsense"] "nonsense" (some "kpis,top5,nonsense")
    (by decide)
  refine ⟨h1.2.1 "boom" (by decide) (by decide) rfl,
    h2.2.2.1 7 (by decide) (by decide) rfl,
    h3.2.2.2.1 (by decide), ?_⟩
  rw [h1.2.2.2.2]

/-! ### The category rollup over reconciled articles -/

theorem reconcile_categories_none (vm : List (String × PVEntry))
    (p : Post) : (reconcile vm p).categories = none := rfl

theorem caAddArticle_of_none (catMap : List (Int × Cat))
    (m : List (String × CatPerf)) (a : Article)
    (h : a.categories = none) : caAddArticle catMap m a = m := by
  simp [caAddArticle, h]

theorem caFold_of_none (catMap : List (Int × Cat))
    (arts : List Article) (h : ∀ a ∈ arts, a.categories = none)
    (m : List (String × CatPerf)) :
    arts.foldl (caAddArticle catMap) m = m := by
  induction arts generalizing m with
  | nil => rfl
  | cons a arts ih =>
    rw [List.foldl_cons,
      caAddArticle_of_none catMap m a (h a (List.mem_cons_self a arts))]
    exact ih (fun b hb => h b (List.mem_cons_of_mem a hb)) m

/-- C6 (code bug).  `contentAnalysis` groups articles over
`a.categories`, but `getArticlesWithChannels` never sets a
`categories` field (its WordPress query projects only
`id,title,link,date,slug` and its returned object literal has no such
field), so `a.categories || []` is always empty: the category rollup
produced from real pipeline output is empty for every input, and even
an article that does belong to a fetched category contributes to no
group. -/
theorem c6_rollup_dead (posts : List Post)
    (vm : List (String × PVEntry)) (cats : List Cat) :
    (contentAnalysis (getArticlesWithChannels posts vm) cats).categories
        = [] ∧
    contentAnalysis
        (getArticlesWithChannels [samplePost]
          [("/news/foo/", sampleEntry)])
        [{ id := 5, name := "Aktien", count := 12, slug := "aktien" }] =
      { categories := [], totalArticles := 1, totalPageviews := 100
        period := "90 Tage" } := by
  constructor
  · have hnone : ∀ a ∈ getArticlesWithChannels posts vm,
        a.categories = none := by
      intro a ha
      by_cases hne : posts = []
      · subst hne; simp [getArticlesWithChannels] at ha
      · obtain ⟨p, _, rfl⟩ := List.mem_map.mp
          (by simpa [getArticlesWithChannels, hne] using ha)
        rfl
    rw [contentAnalysis]
    rw [caFold_of_none _ _ hnone]
    rfl
  · decide

/-! ### Stable-sort lemmas for the rankings -/

section SortLemmas

variable {α : Type} (p : α → α → Prop) [DecidableRel p]

theorem length_insertBy (x : α) (l : List α) :
    (insertBy p x l).length = l.length + 1 := by
  induction l with
  | nil => rfl
  | cons b l ih =>
    rw [insertBy]
    by_cases h : p x b <;> simp [h, ih]

theorem length_sortBy (l : List α) : (sortBy p l).length = l.length := by
  induction l with
  | nil => rfl
  | cons x l ih => rw [sortBy, length_insertBy, ih, List.length_cons]

theorem mem_insertBy (x c : α) (l : List α) :
    c ∈ insertBy p x l ↔ c = x ∨ c ∈ l := by
  induction l with
  | nil => simp [insertBy]
  | cons b l ih =>
    rw [insertBy]
    by_cases h : p x b
    · simp [h]
    · simp [h, ih]
      tauto

theorem pairwise_insertBy (htot : ∀ a b, p a b ∨ p b a)
    (htrans : ∀ a b c, p a b → p b c → p a c) (x : α) (l : List α)
    (hl : l.Pairwise p) : (insertBy p x l).Pairwise p := by
  induction l with
  | nil => simp [insertBy]
  | cons b l ih =>
    rw [insertBy]
    rcases List.pairwise_cons.mp hl with ⟨hb, htl⟩
    by_cases h : p x b
    · rw [if_pos h]
      refine List.pairwise_cons.mpr ⟨?_, hl⟩
      intro c hc
      rcases List.mem_cons.mp hc with rfl | hc
      · exact h
      · exact htrans x b c h (hb c hc)
    · rw [if_neg h]
      refine List.pairwise_cons.mpr ⟨?_, ih htl⟩
      intro c hc
      rcases (mem_insertBy p x c l).mp hc with rfl | hc
      · exact (htot c b).resolve_left h
      · exact hb c hc

theorem pairwise_sortBy (htot : ∀ a b, p a b ∨ p b a)
    (htrans : ∀ a b c, p a b → p b c → p a c) (l : List α) :
    (sortBy p l).Pairwise p := by
  induction l with
  | nil => simp [sortBy]
  | cons x l ih => exact pairwise_insertBy p htot htrans x _ ih

theorem sortBy_of_pairwise (l : List α) (hl : l.Pairwise p) :
    sortBy p l = l := by
  induction l with
  | nil => rfl
  | cons x l ih =>
    rcases List.pairwise_cons.mp hl with ⟨hx, htl⟩
    rw [sortBy, ih htl]
    cases l with
    | nil => rfl
    | cons b l' =>
      rw [insertBy, if_pos (hx b (List.mem_cons_self b l'))]

theorem sortBy_idem (htot : ∀ a b, p a b ∨ p b a)
    (htrans : ∀ a b c, p a b → p b c → p a c) (l : List α) :
    sortBy p (sortBy p l) = sortBy p l :=
  sortBy_of_pairwise p _ (pairwise_sortBy p htot htrans l)

theorem filter_insertBy (q : α → Bool) (x : α) (l : List α)
    (hq : q x = true → ∀ b, ¬ p x b → q b = false) :
    (insertBy p x l).filter q =
      if q x then x :: l.filter q else l.filter q := by
  induction l with
  | nil =>
    cases hx : q x <;> simp [insertBy, List.filter, hx]
  | cons b l ih =>
    rw [insertBy]
    by_cases h : p x b
    · rw [if_pos h]
      cases hx : q x <;> simp [List.filter, hx]
    · rw [if_neg h]
      cases hx : q x with
      | true =>
        have hb : q b = false := hq hx b h
        simp only [List.filter, hb, ih, hx, if_pos]
      | false =>
        simp only [List.filter, ih, hx, if_neg]
        cases q b <;> simp

theorem filter_sortBy (q : α → Bool) (l : List α)
    (hq : ∀ x, q x = true → ∀ b, ¬ p x b → q b = false) :
    (sortBy p l).filter q = l.filter q := by
  induction l with
  | nil => rfl
  | cons x l ih =>
    rw [sortBy, filter_insertBy p q x _ (hq x), ih]
    cases hx : q x <;> simp [List.filter, hx]

end SortLemmas

theorem descPV_total : ∀ a b, descPV a b ∨ descPV b a := fun a b =>
  (Int.le_total b.pageviews a.pageviews).imp id id

theorem descPV_trans : ∀ a b c, descPV a b → descPV b c → descPV a c :=
  fun _ _ _ h1 h2 => le_trans h2 h1

theorem ascPV_total : ∀ a b, ascPV a b ∨ ascPV b a := fun a b =>
  (Int.le_total a.pageviews b.pageviews).imp id id

theorem ascPV_trans : ∀ a b c, ascPV a b → ascPV b c → ascPV a c :=
  fun _ _ _ h1 h2 => le_trans h1 h2

/-- C7.  `top5` and `flop5` return `min 5 n` articles, re-sorting a
ranking (or a sorted list) leaves it unchanged, and the sorts are
stable: the subsequence of articles at any fixed pageview count is
exactly the input's subsequence at that count, so ties keep their
original (publish-date-descending) input order. -/
theorem c7_ranking_properties (l : List Article) :
    (top5 l).length = min 5 l.length ∧
    (flop5 l).length = min 5 l.length ∧
    sortBy descPV (sortBy descPV l) = sortBy descPV l ∧
    sortBy ascPV (sortBy ascPV l) = sortBy ascPV l ∧
    sortBy descPV (top5 l) = top5 l ∧
    sortBy ascPV (flop5 l) = flop5 l ∧
    (∀ k : Int,
      (sortBy descPV l).filter (fun a => decide (a.pageviews = k)) =
        l.filter (fun a => decide (a.pageviews = k))) ∧
    (∀ k : Int,
      (sortBy ascPV l).filter (fun a => decide (a.pageviews = k)) =
        l.filter (fun a => decide (a.pageviews = k))) := by
  refine ⟨?_, ?_, sortBy_idem _ descPV_total descPV_trans l,
    sortBy_idem _ ascPV_total ascPV_trans l, ?_, ?_, ?_, ?_⟩
  · rw [top5, List.length_take, length_sortBy]
  · rw [flop5, List.length_take, length_sortBy]
  · exact sortBy_of_pairwise _ _
      ((pairwise_sortBy _ descPV_total descPV_trans l).sublist
        (List.take_sublist 5 _))
  · exact sortBy_of_pairwise _ _
      ((pairwise_sortBy _ ascPV_total ascPV_trans l).sublist
        (List.take_sublist 5 _))
  · intro k
    refine filter_sortBy _ _ l ?_
    intro x hx b hb
    have h1 : x.pageviews = k := of_decide_eq_true hx
    have h2 : x.pageviews < b.pageviews := lt_of_not_le hb
    exact decide_eq_false (by omega)
  · intro k
    refine filter_sortBy _ _ l ?_
    intro x hx b hb
    have h1 : x.pageviews = k := of_decide_eq_true hx
    have h2 : b.pageviews < x.pageviews := lt_of_not_le hb
    exact decide_eq_false (by omega)

/-! ### Month boundaries -/

theorem shiftMs_zero (t : Instant) (ht : t.ms < msPerDay) :
    shiftMs t 0 = t := by
  rw [shiftMs, if_pos (le_refl 0), addMs, Int.toNat_zero,
    if_pos (by omega)]
  cases t
  simp

/-- Counterexample for C8: in an environment two hours east of UTC
(`o = 120`), at the instant 2024-06-15T00:00Z, `monthlyStats` formats
`firstDayThisMonth` and `lastDayLastMonth` to the SAME string
`"2024-05-31"` (local midnight June 1 lies on May 31 UTC, and so does
the millisecond before it), so the second date is not one calendar day
before the first; `firstDayLastMonth` formats to `"2024-04-30"`
rather than a first-of-month. -/
theorem c8_counterexample :
    monthlyStatsDates 120 ⟨⟨2024, 5, 15⟩, 0⟩ =
      ("2024-05-31", "2024-05-31", "2024-04-30") ∧
    (monthlyStatsCivils 120 ⟨⟨2024, 5, 15⟩, 0⟩).2.1 =
      (monthlyStatsCivils 120 ⟨⟨2024, 5, 15⟩, 0⟩).1 ∧
    predDay (monthlyStatsCivils 120 ⟨⟨2024, 5, 15⟩, 0⟩).1 ≠
      (monthlyStatsCivils 120 ⟨⟨2024, 5, 15⟩, 0⟩).2.1 := by
  refine ⟨by decide, by decide, by decide⟩

/-- C8 as amended.  When the execution environment's clock is UTC
(offset 0) — as in the deployed serverless runtime — the month
boundaries behave as specified for every instant: the formatted
`lastDayLastMonth` is exactly one calendar day before the formatted
`firstDayThisMonth` (which is the first of the current UTC month),
`firstDayLastMonth` is the first of that previous month, and all
three are emitted as `YYYY-MM-DD` renderings of those dates.  With a
nonzero offset the first two formatted dates can coincide. -/
theorem c8_utc_boundaries (now : Instant) (h : now.ms < msPerDay) :
    (monthlyStatsCivils 0 now).1 =
      ⟨now.civil.year, now.civil.month, 1⟩ ∧
    (monthlyStatsCivils 0 now).2.1 =
      predDay (monthlyStatsCivils 0 now).1 ∧
    (monthlyStatsCivils 0 now).2.2 =
      ⟨(predDay (monthlyStatsCivils 0 now).1).year,
        (predDay (monthlyStatsCivils 0 now).1).month, 1⟩ ∧
    monthlyStatsDates 0 now =
      (renderCivil (monthlyStatsCivils 0 now).1,
        renderCivil (monthlyStatsCivils 0 now).2.1,
        renderCivil (monthlyStatsCivils 0 now).2.2) := by
  have hz1 : (0 : Int) * 60000 = 0 := by ring
  have hz2 : -((0 : Int) * 60000) = 0 := by ring
  have hym : localCivil 0 now = now.civil := by
    rw [localCivil, hz1, shiftMs_zero now h]
  have hfdt : mkLocalFirst 0 now.civil.year now.civil.month =
      ⟨⟨now.civil.year, now.civil.month, 1⟩, 0⟩ := by
    rw [mkLocalFirst, hz2, shiftMs_zero _ (by simp [msPerDay])]
  have hldl : subMs ⟨⟨now.civil.year, now.civil.month, 1⟩, 0⟩ 1 =
      ⟨predDay ⟨now.civil.year, now.civil.month, 1⟩, msPerDay - 1⟩ := by
    rw [subMs, if_neg (by simp)]
    simp
  have hlym : localCivil 0
      (⟨predDay ⟨now.civil.year, now.civil.month, 1⟩, msPerDay - 1⟩ :
        Instant) = predDay ⟨now.civil.year, now.civil.month, 1⟩ := by
    rw [localCivil, hz1, shiftMs_zero _ (by simp [msPerDay])]
  have hfdl : mkLocalFirst 0
      (predDay ⟨now.civil.year, now.civil.month, 1⟩).year
      (predDay ⟨now.civil.year, now.civil.month, 1⟩).month =
      ⟨⟨(predDay ⟨now.civil.year, now.civil.month, 1⟩).year,
        (predDay ⟨now.civil.year, now.civil.month, 1⟩).month, 1⟩, 0⟩ := by
    rw [mkLocalFirst, hz2, shiftMs_zero _ (by simp [msPerDay])]
  have hc : monthlyStatsCivils 0 now =
      (⟨now.civil.year, now.civil.month, 1⟩,
       predDay ⟨now.civil.year, now.civil.month, 1⟩,
       ⟨(predDay ⟨now.civil.year, now.civil.month, 1⟩).year,
        (predDay ⟨now.civil.year, now.civil.month, 1⟩).month, 1⟩) := by
    simp only [monthlyStatsCivils, hym, hfdt, hldl, hlym, hfdl]
  refine ⟨by rw [hc], by rw [hc], by rw [hc], ?_⟩
  simp only [monthlyStatsDates]

/-- Witness for C8 as amended, at the instant 2024-01-15T00:00Z
(including a year rollover: December 31 is one day before January 1). -/
theorem c8_utc_boundaries_witness :
    (monthlyStatsCivils 0 ⟨⟨2024, 0, 15⟩, 0⟩).2.1 =
      predDay (monthlyStatsCivils 0 ⟨⟨2024, 0, 15⟩, 0⟩).1 ∧
    monthlyStatsDates 0 ⟨⟨2024, 0, 15⟩, 0⟩ =
      ("2024-01-01", "2023-12-31", "2023-12-01") := by
  have h := c8_utc_boundaries ⟨⟨2024, 0, 15⟩, 0⟩ (by decide)
  exact ⟨h.2.1, by decide⟩

/-! ### Dispatcher envelopes -/

theorem mentions_unknownActionMsg (action a : String)
    (h : mentions unknownActionTail a) :
    mentions (unknownActionMsg action) a := by
  refine h.trans ?_
  have hsuf : unknownActionTail.toList <:+
      (unknownActionMsg action).toList := by
    show unknownActionTail.data <:+
      (("Unbekannte action: \"" ++ action) ++ unknownActionTail).data
    rw [String.data_append]
    exact List.suffix_append _ _
  exact List.IsSuffix.isInfix hsuf

set_option maxRecDepth 100000 in
/-- Counterexample for C9: an OPTIONS preflight is answered 200 with
no envelope at all, and the 400 message does not enumerate all valid
action identifiers — `batch` is dispatched successfully (it is a valid
action) yet never occurs in the unknown-action message. -/
theorem c9_counterexample :
    handler (fun _ => Except.ok (0 : Int)) "OPTIONS" "kpis" none =
      ⟨200, none⟩ ∧
    handler (fun _ => Except.ok (0 : Int)) "GET" "nonsense" none =
      ⟨400, some (.failure (unknownActionMsg "nonsense"))⟩ ∧
    "batch" ∈ validActions ∧
    (handler (fun _ => Except.ok (0 : Int)) "GET" "batch"
        (some "kpis")).status = 200 ∧
    ¬ mentions (unknownActionMsg "nonsense") "batch" := by
  refine ⟨rfl, rfl, by decide, by decide, by decide⟩

set_option maxRecDepth 100000 in
/-- C9 as amended.  For every non-OPTIONS request the dispatcher
returns exactly one of the three envelopes — 200/`success` when the
recognized action's pipeline succeeds, 500/`failure` when it throws
(including batch's own thrown error on an empty action list), and
400/`failure` on an unrecognized action — but the 400 message
enumerates only 19 of the valid identifiers (omitting batch,
searchconsole, dailyPageviews, topPagesByChannel, contentAnalysis,
contentAttribution, generateImage and topArticlesForDate). -/
theorem c9_envelope_trichotomy (env : String → Except String V)
    (method action : String) (ap : Option String)
    (hm : method ≠ "OPTIONS") :
    (action ∉ validActions →
      handler env method action ap =
        ⟨400, some (.failure (unknownActionMsg action))⟩ ∧
      ∀ a ∈ listedActions, mentions (unknownActionMsg action) a) ∧
    (action ∈ dispatchActions →
      (∀ v, env action = .ok v →
        handler env method action ap = ⟨200, some (.success (.inl v))⟩) ∧
      (∀ e, env action = .error e →
        handler env method action ap = ⟨500, some (.failure e)⟩)) ∧
    (action = "batch" →
      (splitActions ap = [] →
        handler env method action ap =
          ⟨500, some (.failure
            "actions parameter required (comma-separated)")⟩) ∧
      (splitActions ap ≠ [] →
        handler env method action ap =
          ⟨200, some (.success (.inr (batch (splitActions ap) env)))⟩)) := by
  refine ⟨?_, ?_, ?_⟩
  · intro hva
    have hb : action ≠ "batch" := fun hc => hva (hc ▸ List.mem_cons_self _ _)
    have hd : action ∉ dispatchActions := fun hc =>
      hva (List.mem_cons_of_mem _ hc)
    refine ⟨?_, ?_⟩
    · rw [handler, if_neg hm, if_neg hb, if_neg hd]
    · intro a ha
      refine mentions_unknownActionMsg action a ?_
      revert a
      decide
  · intro hd
    have hb : action ≠ "batch" := fun hc => by
      rw [hc] at hd
      exact absurd hd (by decide)
    constructor
    · intro v hv
      rw [handler, if_neg hm, if_neg hb, if_pos hd, hv]
    · intro e he
      rw [handler, if_neg hm, if_neg hb, if_pos hd, he]
  · intro hb
    subst hb
    constructor
    · intro hempty
      rw [handler, if_neg hm, if_pos rfl]
      simp only [hempty, if_pos]
    · intro hne
      rw [handler, if_neg hm, if_pos rfl]
      simp only [if_neg hne]

/-- Witness for C9 as amended: a concrete unknown action gets the 400
envelope whose message names `kpis`, and a concrete recognized action
gets the 200 success envelope. -/
theorem c9_envelope_trichotomy_witness :
    handler (fun _ => Except.ok (0 : Int)) "GET" "unknownThing" none =
      ⟨400, some (.failure (unknownActionMsg "unknownThing"))⟩ ∧
    mentions (unknownActionMsg "unknownThing") "kpis" ∧
    handler (fun _ => Except.ok (0 : Int)) "GET" "kpis" none =
      ⟨200, some (.success (.inl 0))⟩ := by
  have h1 := c9_envelope_trichotomy (fun _ => Except.ok (0 : Int))
    "GET" "unknownThing" none (by decide)
  have h2 := c9_envelope_trichotomy (fun _ => Except.ok (0 : Int))
    "GET" "kpis" none (by decide)
  exact ⟨(h1.1 (by decide)).1, (h1.1 (by decide)).2 "kpis" (by decide),
    (h2.2.1 (by decide)).1 0 rfl⟩

/-! ### The reported path is always the primary convention -/

/-- C10.  Every reconciled article reports
`path = "/news/" ++ slug ++ "/"` unconditionally, while its metrics
come from whichever candidate matched first — so an article whose only
index entry is a legacy `/artikel/<slug>/` path still reports the
primary `/news/<slug>/` path while carrying the legacy path's views
(concrete instance: `samplePost` over a legacy-only index reports
`"/news/foo/"` with the 100 views recorded under `"/artikel/foo/"`). -/
theorem c10_reported_path (posts : List Post)
    (vm : List (String × PVEntry)) :
    (∀ a ∈ getArticlesWithChannels posts vm,
      a.path = "/news/" ++ a.slug ++ "/") ∧
    (∀ (p : Post) (q : String) (e : PVEntry),
      firstMatch vm (candidatePaths p.slug) = some (q, e) →
      (reconcile vm p).path = "/news/" ++ p.slug ++ "/" ∧
      (reconcile vm p).pageviews = e.total ∧
      (reconcile vm p).channels = e.channels) ∧
    ((reconcile [("/artikel/foo/", sampleEntry)] samplePost).path =
        "/news/foo/" ∧
      (reconcile [("/artikel/foo/", sampleEntry)] samplePost).pageviews
        = 100 ∧
      firstMatch [("/artikel/foo/", sampleEntry)]
          (candidatePaths samplePost.slug) =
        some ("/artikel/foo/", sampleEntry) ∧
      ("/artikel/foo/" : String) ≠ "/news/foo/") := by
  refine ⟨?_, ?_, by decide, by decide, by decide, by decide⟩
  · intro a ha
    by_cases hne : posts = []
    · subst hne; simp [getArticlesWithChannels] at ha
    · obtain ⟨p, _, rfl⟩ := List.mem_map.mp
        (by simpa [getArticlesWithChannels, hne] using ha)
      rfl
  · intro p q e h
    exact ⟨rfl, by simp [reconcile, h], by simp [reconcile, h]⟩

/-- Witness for C10 applied at the legacy-only index. -/
theorem c10_reported_path_witness :
    (reconcile [("/artikel/foo/", sampleEntry)] samplePost).path =
      "/news/" ++ samplePost.slug ++ "/" ∧
    (reconcile [("/artikel/foo/", sampleEntry)] samplePost).pageviews =
      sampleEntry.total := by
  have h := (c10_reported_path [samplePost]
      [("/artikel/foo/", sampleEntry)]).2.1 samplePost "/artikel/foo/"
    sampleEntry rfl
  exact ⟨h.1, h.2.1⟩

end Goldesel
